import Mathlib

/-!
Verification of the `ai-model-benchmark` repository's extraction and
comparison core.

Python strings are modelled as `List Char` (`Str`); Python floats are
modelled as exact rationals (`ℚ`).  Fallible parsing is modelled with
`Option`.  The definitions below are transcribed from
`src/scraper/hf_scraper.py` (scraper / extractor) and
`src/benchmarks/runner.py` (comparison engine).
-/

set_option maxRecDepth 4000

abbrev Str := List Char

/-- Model of Python `str.lstrip()` (leading-whitespace removal).
Python strips the full Unicode whitespace set; the ASCII subset captured by
`Char.isWhitespace` is what the claims exercise. -/
def lstrip (l : Str) : Str := l.dropWhile Char.isWhitespace

/-- Model of Python `str.rstrip()` (trailing-whitespace removal),
written recursively to ease induction: a character is kept iff something
after it survives, or it is itself not whitespace. -/
def rstrip : Str → Str
  | [] => []
  | c :: t =>
    if (rstrip t).isEmpty then (if c.isWhitespace then [] else [c]) else c :: rstrip t

/-- Model of Python `str.strip()`. -/
def strip (l : Str) : Str := rstrip (lstrip l)

/-- Model of Python `str.lower()` (ASCII). -/
def lowerStr (l : Str) : Str := l.map Char.toLower

/-- Model of Python `str.upper()` (ASCII). -/
def upperStr (l : Str) : Str := l.map Char.toUpper

/-- Model of Python's substring containment test `pat in hay`. -/
def substr (pat : Str) : Str → Bool
  | [] => pat.isEmpty
  | c :: t => pat.isPrefixOf (c :: t) || substr pat t

/-- Numeric value of a digit character. -/
def digitVal (c : Char) : Nat := c.toNat - '0'.toNat

/-- Value of a digit string read in base 10. -/
def digitsToNat (ds : Str) : Nat := ds.foldl (fun a c => 10 * a + digitVal c) 0

/-- Reads an optional leading sign, returning the sign and the rest. -/
def readSign : Str → Int × Str
  | [] => (1, [])
  | c :: t => if c = '+' then (1, t) else if c = '-' then (-1, t) else (1, c :: t)

/-- Core of Python `float(text)` on an already-stripped string:
optional sign, decimal mantissa with optional fractional part, optional
exponent part.  (The special values `inf`/`nan` and underscore separators
are outside the inputs the claims quantify over and are not modelled.)
Returns `none` exactly when Python raises `ValueError`. -/
def pyFloatCore (l : Str) : Option ℚ :=
  let s := readSign l
  let ipr := s.2.span Char.isDigit
  let fpr : Str × Str :=
    match ipr.2 with
    | c :: r => if c = '.' then r.span Char.isDigit else ([], ipr.2)
    | [] => ([], ipr.2)
  if ipr.1.isEmpty ∧ fpr.1.isEmpty then none
  else
    let mantissa : ℚ := (digitsToNat ipr.1 : ℚ) + (digitsToNat fpr.1 : ℚ) / 10 ^ fpr.1.length
    match fpr.2 with
    | [] => some ((s.1 : ℚ) * mantissa)
    | e :: r =>
      if e = 'e' ∨ e = 'E' then
        let es := readSign r
        let ed := es.2.span Char.isDigit
        if ed.1.isEmpty ∨ ¬ed.2.isEmpty then none
        else some ((s.1 : ℚ) * mantissa * 10 ^ (es.1 * (digitsToNat ed.1 : Int)))
      else none

/-- Model of Python `float(text)`: `float` ignores surrounding whitespace. -/
def pyFloat (l : Str) : Option ℚ := pyFloatCore (strip l)

/-- Core of Python `int(text)` on an already-stripped string: optional
sign, at least one digit, nothing else. -/
def pyIntCore : Str → Option Int
  | [] => none
  | c :: ds =>
    if c = '+' then
      if ds ≠ [] ∧ ds.all Char.isDigit then some (digitsToNat ds) else none
    else if c = '-' then
      if ds ≠ [] ∧ ds.all Char.isDigit then some (-(digitsToNat ds : Int)) else none
    else if (c :: ds).all Char.isDigit then some (digitsToNat (c :: ds)) else none

/-- Model of Python `int(text)` on string input: surrounding whitespace is
ignored. -/
def pyInt (l : Str) : Option Int := pyIntCore (strip l)

/-- Model of Python `int(x)` on a float: truncation toward zero. -/
def truncQ (q : ℚ) : Int := if q < 0 then -(Rat.floor (-q)) else Rat.floor q

/-- The unit-suffix multipliers of `HuggingFaceScraper._parse_number`
(`multipliers = {"K": 1_000, "M": 1_000_000, "B": 1_000_000_000}`),
as the ordered list the dict is iterated in. -/
def multipliers : List (Char × Int) := [('K', 1000), ('M', 1000000), ('B', 1000000000)]

/-- The suffix loop of `_parse_number`: for each suffix in order, if the
suffix occurs in the text, try `int(float(text.replace(suffix, "")) * mult)`;
on a `float` failure fall through (`except: pass`) to the next suffix. -/
def suffixLoop (t : Str) : List (Char × Int) → Option Int
  | [] => none
  | (s, mult) :: rest =>
    if t.contains s then
      match pyFloat (t.filter (fun ch => ch ≠ s)) with
      | some q => some (truncQ (q * (mult : ℚ)))
      | none => suffixLoop t rest
    else suffixLoop t rest

/-- The body of `_parse_number` after the normalization line: suffix loop,
then a plain `int(text)` fallback, then `0` when everything fails. -/
def parseNumberCore (t : Str) : Int :=
  match suffixLoop t multipliers with
  | some n => n
  | none =>
    match pyInt t with
    | some n => n
    | none => 0

/-- Model of `HuggingFaceScraper._parse_number` (the spec's `parse_count`):
`text = text.strip().upper().replace(",", "")`, then the suffix loop and
fallbacks. -/
def parseNumber (text : Str) : Int :=
  parseNumberCore ((upperStr (strip text)).filter (fun ch => ch ≠ ','))

/-- Model of `HuggingFaceScraper._parse_benchmark_value`
(the spec's `parse_score`): `text.strip()`, remove every `%`, then
`float(text)`; `None` on parse failure. -/
def parseBenchmarkValue (text : Str) : Option ℚ :=
  pyFloat ((strip text).filter (fun ch => ch ≠ '%'))

/-- First position (scanning the string left to right, as `re.search` does)
at which the step matcher succeeds. -/
def searchScan (f : Str → Option Nat) : Str → Option Nat
  | [] => f []
  | c :: t =>
    match f (c :: t) with
    | some n => some n
    | none => searchScan f t

/-- Anchored match of the regex `(\d+)[_-]shot` (greedy digit run, then a
single `_` or `-`, then the literal `shot`). -/
def shotPat1 (l : Str) : Option Nat :=
  let d := l.span Char.isDigit
  if d.1.isEmpty then none
  else
    match d.2 with
    | x :: r => if (x = '_' ∨ x = '-') ∧ "shot".toList.isPrefixOf r then some (digitsToNat d.1) else none
    | [] => none

/-- Anchored match of the regex `(\d+)[\s-]*shot`. -/
def shotPat2 (l : Str) : Option Nat :=
  let d := l.span Char.isDigit
  if d.1.isEmpty then none
  else
    let r := d.2.dropWhile (fun c => c.isWhitespace || c = '-')
    if "shot".toList.isPrefixOf r then some (digitsToNat d.1) else none

/-- Anchored match of the regex `shot[_\s]*(\d+)`. -/
def shotPat3 (l : Str) : Option Nat :=
  if "shot".toList.isPrefixOf l then
    let r := (l.drop 4).dropWhile (fun c => c = '_' || c.isWhitespace)
    let d := r.span Char.isDigit
    if d.1.isEmpty then none else some (digitsToNat d.1)
  else none

/-- Model of `HuggingFaceScraper._extract_num_shots`: the three shot
patterns are tried in order with `re.search(..., re.I)`; the first pattern
that matches anywhere wins. -/
def extractNumShots (text : Str) : Option Nat :=
  let low := lowerStr text
  match searchScan shotPat1 low with
  | some n => some n
  | none =>
    match searchScan shotPat2 low with
    | some n => some n
    | none => searchScan shotPat3 low

/-- `HuggingFaceScraper.BENCHMARK_PATTERNS`, in source order. -/
def benchmarkPatterns : List Str :=
  ["mmlu".toList, "humaneval".toList, "mbpp".toList, "truthfulqa".toList,
   "hellaswag".toList, "winogrande".toList, "gsm8k".toList, " DROP".toList,
   " Squad".toList, " GLUE".toList, "big bench".toList, "mmlupro".toList,
   "agieval".toList, "bbh".toList, "arc".toList]

/-- The spec's `BenchmarkNameMatcher.match`, as implemented by the pattern
loop of `extract_benchmarks`: the label is stripped and lowercased
(`cells[0].get_text().strip().lower()`), each catalog pattern is lowercased
and tested for containment (`pattern.lower() in name_cell`), and the first
hit wins. -/
def matchBenchmark (label : Str) : Option Str :=
  benchmarkPatterns.find? (fun p => substr (lowerStr p) (lowerStr (strip label)))

/-- `BenchmarkScore` (pydantic model of `hf_scraper.py`). -/
structure BenchmarkScore where
  name : Str
  value : ℚ
  dataset : Str
  num_shots : Option Nat
  raw_value : Str
deriving DecidableEq, Repr

/-- The pattern loop inside `extract_benchmarks` for one row, with the
source's control flow: the `break` sits inside `if value is not None`, so a
matching pattern whose value fails to parse falls through to the next
pattern. -/
def rowLoop (name_cell value_cell : Str) : List Str → List BenchmarkScore
  | [] => []
  | p :: rest =>
    if substr (lowerStr p) name_cell then
      match parseBenchmarkValue value_cell with
      | some v =>
        [{ name := name_cell, value := v, dataset := name_cell,
           num_shots := extractNumShots name_cell, raw_value := value_cell }]
      | none => rowLoop name_cell value_cell rest
    else rowLoop name_cell value_cell rest

/-- One table row of `extract_benchmarks`: rows with fewer than two cells
are skipped; cell 0 is the stripped lowercased label, cell 1 the stripped
value text. -/
def extractRow (cells : List Str) : List BenchmarkScore :=
  match cells with
  | c0 :: c1 :: _ => rowLoop (lowerStr (strip c0)) (strip c1) benchmarkPatterns
  | _ => []

/-- A parsed document, reduced to what `extract_benchmarks` reads: the list
of tables, each a list of rows, each a list of cell texts.  (The
`benchmark_sections` lookup in the source is dead code: its result is never
used.) -/
abbrev Document := List (List (List Str))

/-- Model of `HuggingFaceScraper.extract_benchmarks`: every row of every
table is scanned in order and contributes its records. -/
def extractBenchmarks (doc : Document) : List BenchmarkScore :=
  ((doc.flatten).map extractRow).flatten

/-! ## The comparison engine (`src/benchmarks/runner.py`) -/

/-- `BenchmarkComparison` (pydantic model of `runner.py`), with the
source's optional fields and defaults. -/
structure BenchmarkComparison where
  model_id : Str
  task : Str
  metric : Str
  reported_value : Option ℚ := none
  actual_value : Option ℚ := none
  difference : Option ℚ := none
  difference_pct : Option ℚ := none
  is_overclaimed : Bool := false
  notes : Str := []
deriving DecidableEq, Repr

/-- Model of `BenchmarkRunner.compare`. -/
def BenchmarkRunner.compare (model_id task metric : Str) (reported actual : ℚ) : BenchmarkComparison :=
  let difference := actual - reported
  let difference_pct : ℚ := if reported ≠ 0 then difference / reported * 100 else 0
  let is_overclaimed : Bool := difference_pct < -5
  { model_id := model_id, task := task, metric := metric,
    reported_value := some reported, actual_value := some actual,
    difference := some difference, difference_pct := some difference_pct,
    is_overclaimed := is_overclaimed,
    notes := if is_overclaimed then "Overclaimed!".toList else "Within expected range".toList }

/-- The dict returned by `BenchmarkRunner.run_benchmark` (a placeholder
that performs no evaluation). -/
structure RunResult where
  model_id : Str
  task : Str
  value : ℚ
  status : Str
  message : Str

/-- Model of `BenchmarkRunner.run_benchmark`: always succeeds with
`value = 0.0` and status `"not_implemented"`. -/
def runBenchmark (model_id task : Str) : RunResult :=
  { model_id := model_id, task := task, value := 0,
    status := "not_implemented".toList,
    message := "Full benchmark runner requires GPU and model loading".toList }

/-- Python-dict insertion: an existing key is updated in place, a new key
is appended. -/
def dictInsert (d : List (Str × ℚ)) (k : Str) (v : ℚ) : List (Str × ℚ) :=
  match d with
  | [] => [(k, v)]
  | (k', v') :: t => if k' = k then (k, v) :: t else (k', v') :: dictInsert t k v

/-- The dict comprehension `{b["name"]: b["value"] for b in ...}`:
entries are inserted in order, later entries overwriting earlier ones. -/
def buildDict (l : List (Str × ℚ)) : List (Str × ℚ) :=
  l.foldl (fun d kv => dictInsert d kv.1 kv.2) []

/-- Python-dict lookup. -/
def dictLookup (d : List (Str × ℚ)) (k : Str) : Option ℚ :=
  (d.find? (fun kv => kv.1 == k)).map (fun kv => kv.2)

/-- The file name used by `load_reported_benchmarks`:
`f"data/{model_id.replace('/', '_')}.json"`. -/
def reportedFilename (model_id : Str) : Str :=
  "data/".toList ++ model_id.map (fun c => if c = '/' then '_' else c) ++ ".json".toList

/-- Model of `BenchmarkRunner.load_reported_benchmarks`.  The filesystem
and JSON layer is abstracted as `fs`, mapping a file name to the parsed
`benchmarks` array of `(name, value)` entries, or `none` when the file is
missing (`FileNotFoundError`, which the source catches and turns into an
empty dict). -/
def loadReportedBenchmarks (fs : Str → Option (List (Str × ℚ))) (model_id : Str) :
    List (Str × ℚ) :=
  match fs (reportedFilename model_id) with
  | none => []
  | some bs => buildDict bs

/-- The default task list of `compare_model` (`tasks = None`). -/
def defaultTasks : List Str := ["mmlu".toList, "humaneval".toList, "mbpp".toList]

/-- Model of `BenchmarkRunner.compare_model`: load the reported dict, then
for each requested task in order, if the task is a key of the reported
dict, run the (stub) benchmark and emit a comparison with
`metric="accuracy"` and `actual = actual_result.get("value", 0)`. -/
def compareModel (fs : Str → Option (List (Str × ℚ))) (model_id : Str)
    (tasks : List Str) : List BenchmarkComparison :=
  let reported := loadReportedBenchmarks fs model_id
  tasks.filterMap (fun task =>
    match dictLookup reported task with
    | some v =>
      some (BenchmarkRunner.compare model_id task ("accuracy".toList) v
        (runBenchmark model_id task).value)
    | none => none)

/-- Decimal rendering of a rational with two digits after the point
(round half to even, as Python's `f"{x:.2f}"` does on exact values; the
binary-double artifacts of the real `float` formatting are not modelled). -/
def fmt2 (q : ℚ) : Str :=
  let h : ℚ := q * 100
  let fl : Int := Rat.floor h
  let fr : ℚ := h - (fl : ℚ)
  let n : Int :=
    if fr > 1/2 then fl + 1
    else if fr < 1/2 then fl
    else if fl % 2 = 0 then fl else fl + 1
  let a : Nat := n.natAbs
  let frac : Nat := a % 100
  let fracStr := (if frac < 10 then "0".toList else []) ++ (toString frac).toList
  (if n < 0 then "-".toList else []) ++ (toString (a / 100)).toList ++ '.' :: fracStr

/-- Rendering of an optional value, as Python's f-string `str()` does
(`None` prints as `None`). -/
def optQStr (o : Option ℚ) : Str :=
  match o with
  | none => "None".toList
  | some q => (toString q).toList

/-- The per-comparison lines of `generate_report`.  The line
`f"Difference: {comp.difference_pct:.2f}%"` applies float formatting to
`difference_pct`, which raises on `None`; this is modelled by the
`Option`. -/
def reportEntry (c : BenchmarkComparison) : Option (List Str) :=
  c.difference_pct.map (fun dp =>
    ["Model: ".toList ++ c.model_id,
     "Task: ".toList ++ c.task,
     "Reported: ".toList ++ optQStr c.reported_value,
     "Actual: ".toList ++ optQStr c.actual_value,
     "Difference: ".toList ++ fmt2 dp ++ "%".toList,
     "Status: ".toList ++ (if c.is_overclaimed then "OVERCLAIMED".toList else "OK".toList),
     (List.replicate 40 '-')])

/-- Sequencing of the per-comparison loop of `generate_report`: the first
failing entry aborts the whole report (a raised exception). -/
def entriesLoop : List BenchmarkComparison → Option (List (List Str))
  | [] => some []
  | c :: t =>
    match reportEntry c, entriesLoop t with
    | some e, some es => some (e :: es)
    | _, _ => none

/-- Model of `BenchmarkRunner.generate_report`: header lines, then the
entry lines of every comparison, joined with newlines.  It is defined
(`some`) exactly when every comparison's `difference_pct` is non-null. -/
def generateReport (comparisons : List BenchmarkComparison) : Option Str :=
  (entriesLoop comparisons).map (fun entries =>
    List.intercalate ['\n']
      ([List.replicate 60 '=', "BENCHMARK COMPARISON REPORT".toList,
        List.replicate 60 '=', []] ++ entries.flatten))

/-! ## Concrete inputs used by the claims -/

/-- The decimal-literal alphabet: the characters a plain `float` string may
consist of (digits, decimal point, sign). -/
def floatChars : List Char :=
  ['0', '1', '2', '3', '4', '5', '6', '7', '8', '9', '.', '+', '-']

/-- The digit alphabet. -/
def digitChars : List Char :=
  ['0', '1', '2', '3', '4', '5', '6', '7', '8', '9']

/-- A document with one table whose two rows are both labeled `mmlu`, with
different scores. -/
def twoMmluDoc : Document :=
  [[["mmlu".toList, "70".toList], ["mmlu".toList, "80".toList]]]

/-- A document with a single `mmlu` row. -/
def oneMmluDoc : Document := [[["mmlu".toList, "75.3".toList]]]

/-- A filesystem holding one reported-benchmark file for model `m`, whose
only entry is a `gsm8k` score. -/
def gsm8kFs : Str → Option (List (Str × ℚ)) :=
  fun name =>
    if name = reportedFilename ("m".toList) then some [("gsm8k".toList, 50)] else none

/-! ## String lemmas

Whitespace stripping commutes (up to re-stripping) with removal of
non-whitespace characters; these lemmas back the percent-sign claims. -/

theorem lstrip_cons (a : Char) (t : Str) :
    lstrip (a :: t) = if a.isWhitespace then lstrip t else a :: t := by
  simp only [lstrip, List.dropWhile_cons]

theorem rstrip_cons (a : Char) (t : Str) :
    rstrip (a :: t) =
      if (rstrip t).isEmpty then (if a.isWhitespace then [] else [a]) else a :: rstrip t := rfl

theorem rstrip_all_ws : ∀ t : Str, rstrip t = [] → ∀ c ∈ t, c.isWhitespace = true := by
  intro t
  induction t with
  | nil => intro _ c hc; cases hc
  | cons a t ih =>
    intro h c hc
    rw [rstrip_cons] at h
    cases hr : rstrip t with
    | nil =>
      rw [hr] at h
      simp only [List.isEmpty_nil, if_true] at h
      by_cases ha : a.isWhitespace = true
      · rcases List.mem_cons.mp hc with hc | hc
        · rw [hc]; exact ha
        · exact ih hr c hc
      · rw [if_neg ha] at h; simp at h
    | cons b r =>
      rw [hr] at h
      simp at h

theorem rstrip_eq_self (t : Str) (h : ∀ c ∈ t, c.isWhitespace = false) : rstrip t = t := by
  induction t with
  | nil => rfl
  | cons a t ih =>
    have ht : rstrip t = t := ih (fun c hc => h c (List.mem_cons_of_mem a hc))
    have ha : a.isWhitespace = false := h a (List.mem_cons_self a t)
    rw [rstrip_cons, ht]
    cases t with
    | nil => simp [ha]
    | cons b t' => simp

theorem lstrip_eq_self (t : Str) (h : ∀ c ∈ t, c.isWhitespace = false) : lstrip t = t := by
  cases t with
  | nil => rfl
  | cons a t =>
    have ha : a.isWhitespace = false := h a (List.mem_cons_self a t)
    rw [lstrip_cons, if_neg (by simp [ha])]

theorem strip_eq_self (t : Str) (h : ∀ c ∈ t, c.isWhitespace = false) : strip t = t := by
  rw [strip, lstrip_eq_self t h, rstrip_eq_self t h]

theorem rstrip_cons_congr (c : Char) (x y : Str) (h : rstrip x = rstrip y) :
    rstrip (c :: x) = rstrip (c :: y) := by
  rw [rstrip_cons, rstrip_cons, h]

theorem lstrip_filter (p : Char → Bool) (hp : ∀ c, c.isWhitespace = true → p c = true) :
    ∀ x : Str, lstrip (List.filter p (lstrip x)) = lstrip (List.filter p x) := by
  intro x
  induction x with
  | nil => rfl
  | cons a t ih =>
    by_cases ha : a.isWhitespace = true
    · rw [lstrip_cons, if_pos ha, List.filter_cons_of_pos (hp a ha), lstrip_cons, if_pos ha]
      exact ih
    · rw [lstrip_cons, if_neg ha]

theorem rstrip_filter (p : Char → Bool) (hp : ∀ c, c.isWhitespace = true → p c = true) :
    ∀ x : Str, rstrip (List.filter p (rstrip x)) = rstrip (List.filter p x) := by
  intro x
  induction x with
  | nil => rfl
  | cons a t ih =>
    rw [rstrip_cons]
    cases hr : rstrip t with
    | nil =>
      have hft : List.filter p t = t :=
        List.filter_eq_self.mpr (fun c hc => hp c (rstrip_all_ws t hr c hc))
      simp only [List.isEmpty_nil, if_true]
      by_cases ha : a.isWhitespace = true
      · rw [if_pos ha, List.filter_cons_of_pos (hp a ha), hft, rstrip_cons, hr]
        simp [ha]
        rfl
      · rw [if_neg ha]
        by_cases hpa : p a = true
        · rw [List.filter_cons_of_pos hpa, List.filter_cons_of_pos hpa, hft, List.filter_nil]
          simp [rstrip, ha, hr]
        · have hpa' : ¬ p a = true := hpa
          rw [List.filter_cons_of_neg hpa', List.filter_cons_of_neg hpa', hft, List.filter_nil, hr]
          rfl
    | cons b r =>
      simp only [List.isEmpty_cons, if_false, Bool.false_eq_true]
      rw [hr] at ih
      by_cases hpa : p a = true
      · rw [List.filter_cons_of_pos hpa, List.filter_cons_of_pos hpa]
        exact rstrip_cons_congr a _ _ ih
      · rw [List.filter_cons_of_neg hpa, List.filter_cons_of_neg hpa]
        exact ih

theorem lstrip_rstrip_comm : ∀ x : Str, lstrip (rstrip x) = rstrip (lstrip x) := by
  intro x
  induction x with
  | nil => rfl
  | cons a t ih =>
    rw [rstrip_cons, lstrip_cons]
    by_cases ha : a.isWhitespace = true
    · rw [if_pos ha, if_pos ha]
      cases hr : rstrip t with
      | nil =>
        simp only [List.isEmpty_nil, if_true, if_pos ha]
        rw [← ih, hr]
      | cons b r =>
        simp only [List.isEmpty_cons, if_false, Bool.false_eq_true]
        rw [lstrip_cons, if_pos ha, ← ih, hr]
    · rw [if_neg ha, if_neg ha, rstrip_cons]
      cases hr : rstrip t with
      | nil =>
        simp only [List.isEmpty_nil, if_true, if_neg ha]
        rw [lstrip_cons, if_neg ha]
      | cons b r =>
        simp only [List.isEmpty_cons, if_false, Bool.false_eq_true]
        rw [lstrip_cons, if_neg ha]

theorem strip_filter (p : Char → Bool) (hp : ∀ c, c.isWhitespace = true → p c = true)
    (x : Str) : strip (List.filter p (strip x)) = strip (List.filter p x) := by
  unfold strip
  calc rstrip (lstrip (List.filter p (rstrip (lstrip x))))
      = lstrip (rstrip (List.filter p (rstrip (lstrip x)))) := (lstrip_rstrip_comm _).symm
    _ = lstrip (rstrip (List.filter p (lstrip x))) := by rw [rstrip_filter p hp (lstrip x)]
    _ = rstrip (lstrip (List.filter p (lstrip x))) := lstrip_rstrip_comm _
    _ = rstrip (lstrip (List.filter p x)) := by rw [lstrip_filter p hp x]

/-! ## Generic list and dict lemmas -/

theorem substr_cons (pat : Str) (c : Char) (t : Str) :
    substr pat (c :: t) = (pat.isPrefixOf (c :: t) || substr pat t) := rfl

theorem find?_first {α : Type} (p : α → Bool) :
    ∀ (l : List α) (a : α), l.find? p = some a →
      ∃ pre post, l = pre ++ a :: post ∧ p a = true ∧ ∀ b ∈ pre, p b = false := by
  intro l
  induction l with
  | nil => intro a h; cases h
  | cons c t ih =>
    intro a h
    cases hc : p c with
    | true =>
      rw [List.find?_cons_of_pos _ hc] at h
      refine ⟨[], t, ?_, ?_, ?_⟩
      · rw [Option.some_inj.mp h]; rfl
      · rw [← Option.some_inj.mp h]; exact hc
      · intro b hb; cases hb
    | false =>
      rw [List.find?_cons_of_neg _ (by simp [hc])] at h
      obtain ⟨pre, post, hl, hpa, hpre⟩ := ih a h
      refine ⟨c :: pre, post, by rw [hl]; rfl, hpa, ?_⟩
      intro b hb
      rcases List.mem_cons.mp hb with hb | hb
      · rw [hb]; exact hc
      · exact hpre b hb

theorem dictLookup_nil (k : Str) : dictLookup [] k = none := rfl

theorem dictLookup_cons (k₀ : Str) (v₀ : ℚ) (t : List (Str × ℚ)) (k : Str) :
    dictLookup ((k₀, v₀) :: t) k = if k₀ == k then some v₀ else dictLookup t k := by
  cases h : (k₀ == k) with
  | true =>
    rw [dictLookup, @List.find?_cons_of_pos (Str × ℚ) (fun kv => kv.1 == k) (k₀, v₀) t h]
    simp [h]
  | false =>
    rw [dictLookup, @List.find?_cons_of_neg (Str × ℚ) (fun kv => kv.1 == k) (k₀, v₀) t
      (by simp [h])]
    simp [h, dictLookup]

theorem dictLookup_dictInsert (d : List (Str × ℚ)) (k : Str) (v : ℚ) (k' : Str) :
    dictLookup (dictInsert d k v) k' = if k = k' then some v else dictLookup d k' := by
  induction d with
  | nil =>
    by_cases h : k = k'
    · simp [dictInsert, dictLookup_cons, h]
    · simp [dictInsert, dictLookup_cons, h, dictLookup_nil]
  | cons kv t ih =>
    obtain ⟨k₀, v₀⟩ := kv
    by_cases h0 : k₀ = k
    · rw [show dictInsert ((k₀, v₀) :: t) k v = (k, v) :: t by simp [dictInsert, h0]]
      by_cases h : k = k'
      · simp [dictLookup_cons, h]
      · simp [dictLookup_cons, h, h0, dictLookup_cons (t := t)]
    · rw [show dictInsert ((k₀, v₀) :: t) k v = (k₀, v₀) :: dictInsert t k v by
        simp [dictInsert, h0]]
      rw [dictLookup_cons, ih, dictLookup_cons]
      by_cases h1 : k₀ = k'
      · have h2 : k ≠ k' := fun hkk => h0 (by rw [hkk, h1])
        simp [h1, h2]
      · simp [h1]

theorem dictLookup_foldl (l : List (Str × ℚ)) : ∀ (d : List (Str × ℚ)) (k : Str),
    dictLookup (l.foldl (fun d kv => dictInsert d kv.1 kv.2) d) k
      = ((l.reverse.find? (fun kv => kv.1 == k)).map (fun kv => kv.2)).or (dictLookup d k) := by
  induction l with
  | nil => intro d k; simp
  | cons kv t ih =>
    intro d k
    rw [List.foldl_cons, ih, List.reverse_cons, List.find?_append]
    cases hf : t.reverse.find? (fun kv => kv.1 == k) with
    | some x => simp [hf]
    | none =>
      simp only [hf, Option.none_or, Option.map_none']
      rw [dictLookup_dictInsert]
      cases hkv : (kv.1 == k) with
      | true =>
        rw [show List.find? (fun kv : Str × ℚ => kv.1 == k) [kv] = some kv from
          List.find?_cons_of_pos _ hkv]
        simp [beq_iff_eq.mp hkv]
      | false =>
        rw [show List.find? (fun kv : Str × ℚ => kv.1 == k) [kv] = none from
          List.find?_cons_of_neg _ (by simp [hkv])]
        have : ¬ kv.1 = k := by simpa using hkv
        simp [this]

theorem dictLookup_buildDict (l : List (Str × ℚ)) (k : Str) :
    dictLookup (buildDict l) k
      = (l.reverse.find? (fun kv => kv.1 == k)).map (fun kv => kv.2) := by
  rw [buildDict, dictLookup_foldl, dictLookup_nil, Option.or_none]

theorem entriesLoop_isSome : ∀ l : List BenchmarkComparison,
    (∀ c ∈ l, (reportEntry c).isSome = true) → (entriesLoop l).isSome = true := by
  intro l
  induction l with
  | nil => intro _; rfl
  | cons c t ih =>
    intro h
    have hc : (reportEntry c).isSome = true := h c (List.mem_cons_self c t)
    have ht : (entriesLoop t).isSome = true :=
      ih (fun x hx => h x (List.mem_cons_of_mem c hx))
    obtain ⟨e, he⟩ := Option.isSome_iff_exists.mp hc
    obtain ⟨es, hes⟩ := Option.isSome_iff_exists.mp ht
    simp [entriesLoop, he, hes]

theorem substr_mono (p q : Str)
    (hpq : ∀ y : Str, p.isPrefixOf y = true → q.isPrefixOf y = true) :
    ∀ x : Str, substr p x = true → substr q x = true := by
  intro x
  induction x with
  | nil =>
    intro h
    have hp : p = [] := by simpa [substr, List.isEmpty_iff] using h
    have hq : q.isPrefixOf ([] : Str) = true := hpq [] (by rw [hp]; rfl)
    have : q = [] := List.prefix_nil.mp ( List.isPrefixOf_iff_prefix.mp hq)
    simp [substr, this, List.isEmpty_iff]
  | cons c t ih =>
    intro h
    rcases Bool.or_eq_true_iff.mp (by rw [← substr_cons]; exact h) with h1 | h1
    · rw [substr_cons, hpq (c :: t) h1, Bool.true_or]
    · rw [substr_cons, ih h1, Bool.or_true]

theorem mmlupro_prefixOf_imp_mmlu (y : Str) (h : "mmlupro".toList.isPrefixOf y = true) :
    "mmlu".toList.isPrefixOf y = true := by
  have h1 : "mmlu".toList <+: "mmlupro".toList := ⟨['p', 'r', 'o'], by decide⟩
  exact List.isPrefixOf_iff_prefix.mpr (h1.trans ( List.isPrefixOf_iff_prefix.mp h))

/-! ## Helper lemmas for the parse and compare theorems -/

theorem contains_false (l : Str) (a : Char) (h : a ∉ l) : l.contains a = false := by
  cases hc : l.contains a with
  | false => rfl
  | true => exact absurd (List.elem_iff.mp hc) h

theorem map_self {α : Type} (f : α → α) :
    ∀ l : List α, (∀ a ∈ l, f a = a) → l.map f = l := by
  intro l
  induction l with
  | nil => intro _; rfl
  | cons a t ih =>
    intro h
    rw [List.map_cons, h a (List.mem_cons_self a t),
      ih (fun x hx => h x (List.mem_cons_of_mem a hx))]

theorem truncQ_intCast (n : Int) : truncQ ((n : ℚ)) = n := by
  unfold truncQ
  by_cases h : ((n : ℚ)) < 0
  · rw [if_pos h]
    rw [show (-(n : ℚ)) = (((-n : Int)) : ℚ) by push_cast; ring]
    rw [show Rat.floor (((-n : Int)) : ℚ) = -n from rfl]
    ring
  · rw [if_neg h]
    rfl

/-! ## Claim theorems -/

/-- **C3.** For nonzero `reported`, `BenchmarkRunner.compare` returns
`difference = actual − reported`,
`difference_pct = difference / reported * 100`, and
`is_overclaimed` exactly when `difference_pct < −5`; in particular at
`reported = 80`, `actual = 74` it yields `difference = -6`,
`difference_pct = -7.5` and `is_overclaimed = True`. -/
theorem c3_compare_values :
    (∀ (model_id task metric : Str) (reported actual : ℚ), reported ≠ 0 →
      (BenchmarkRunner.compare model_id task metric reported actual).difference = some (actual - reported) ∧
      (BenchmarkRunner.compare model_id task metric reported actual).difference_pct
        = some ((actual - reported) / reported * 100) ∧
      ((BenchmarkRunner.compare model_id task metric reported actual).is_overclaimed = true ↔
        (actual - reported) / reported * 100 < -5)) ∧
    ((BenchmarkRunner.compare ("model".toList) ("mmlu".toList) ("accuracy".toList) 80 74).difference
        = some (-6) ∧
      (BenchmarkRunner.compare ("model".toList) ("mmlu".toList) ("accuracy".toList) 80 74).difference_pct
        = some (-15 / 2) ∧
      (BenchmarkRunner.compare ("model".toList) ("mmlu".toList) ("accuracy".toList) 80 74).is_overclaimed
        = true) := by
  constructor
  · intro model_id task metric reported actual h
    refine ⟨rfl, ?_, ?_⟩
    · simp [BenchmarkRunner.compare, h]
    · simp [BenchmarkRunner.compare, h]
  · refine ⟨?_, ?_, ?_⟩ <;> norm_num [BenchmarkRunner.compare]

/-- Witness for C3: the general statement applied at
`reported = 80`, `actual = 74`. -/
theorem c3_compare_values_witness :
    (80 : ℚ) ≠ 0 ∧
    ((BenchmarkRunner.compare ("m".toList) ("t".toList) ("acc".toList) 80 74).difference
        = some (74 - 80) ∧
      (BenchmarkRunner.compare ("m".toList) ("t".toList) ("acc".toList) 80 74).difference_pct
        = some ((74 - 80) / 80 * 100) ∧
      ((BenchmarkRunner.compare ("m".toList) ("t".toList) ("acc".toList) 80 74).is_overclaimed = true ↔
        ((74 : ℚ) - 80) / 80 * 100 < -5)) :=
  ⟨by norm_num,
    c3_compare_values.1 ("m".toList) ("t".toList) ("acc".toList) 80 74 (by norm_num)⟩

/-- **C4.** When `reported == 0`, `compare` defines `difference_pct` as `0`
(the division-by-zero guard), never fails, and sets `is_overclaimed` to
`False`. -/
theorem c4_compare_zero_guard (model_id task metric : Str) (actual : ℚ) :
    (BenchmarkRunner.compare model_id task metric 0 actual).difference_pct = some 0 ∧
    (BenchmarkRunner.compare model_id task metric 0 actual).is_overclaimed = false := by
  constructor
  · simp [BenchmarkRunner.compare]
  · norm_num [BenchmarkRunner.compare]

/-- **C9.** When the persisted reported-benchmark file — keyed as
`data/<model_id with slashes replaced by underscores>.json` — is missing,
`load_reported_benchmarks` returns an empty mapping and raises no error. -/
theorem c9_missing_file_empty (fs : Str → Option (List (Str × ℚ))) (model_id : Str)
    (h : fs (reportedFilename model_id) = none) :
    loadReportedBenchmarks fs model_id = [] := by
  rw [loadReportedBenchmarks, h]

/-- Witness for C9: an empty filesystem and a model id with a slash. -/
theorem c9_missing_file_empty_witness :
    loadReportedBenchmarks (fun _ => none) ("meta-llama/Llama-2-7b".toList) = [] :=
  c9_missing_file_empty (fun _ => none) ("meta-llama/Llama-2-7b".toList) rfl

/-- **C10.** Every `BenchmarkComparison` produced by `compare` has
`reported_value`, `actual_value`, `difference` and `difference_pct` all
populated, although the record type declares them optional; consequently
`generate_report`'s two-decimal formatting of `difference_pct` is defined
on any list of compare-produced comparisons. -/
theorem c10_compare_populates :
    (∀ (model_id task metric : Str) (reported actual : ℚ),
      ((BenchmarkRunner.compare model_id task metric reported actual).reported_value).isSome = true ∧
      ((BenchmarkRunner.compare model_id task metric reported actual).actual_value).isSome = true ∧
      ((BenchmarkRunner.compare model_id task metric reported actual).difference).isSome = true ∧
      ((BenchmarkRunner.compare model_id task metric reported actual).difference_pct).isSome = true) ∧
    (∀ l : List BenchmarkComparison,
      (∀ c ∈ l, ∃ m t mt r a, c = BenchmarkRunner.compare m t mt r a) →
      (generateReport l).isSome = true) := by
  constructor
  · intro model_id task metric reported actual
    exact ⟨rfl, rfl, rfl, rfl⟩
  · intro l h
    have h2 : (entriesLoop l).isSome = true := by
      refine entriesLoop_isSome l (fun c hc => ?_)
      obtain ⟨m, t, mt, r, a, rfl⟩ := h c hc
      rfl
    obtain ⟨es, hes⟩ := Option.isSome_iff_exists.mp h2
    rw [generateReport, hes]
    rfl

/-- Witness for C10: a singleton compare-produced list has a defined
report. -/
theorem c10_compare_populates_witness :
    (((BenchmarkRunner.compare ("m".toList) ("mmlu".toList) ("accuracy".toList) 80 74).reported_value).isSome
        = true ∧
      ((BenchmarkRunner.compare ("m".toList) ("mmlu".toList) ("accuracy".toList) 80 74).actual_value).isSome
        = true ∧
      ((BenchmarkRunner.compare ("m".toList) ("mmlu".toList) ("accuracy".toList) 80 74).difference).isSome
        = true ∧
      ((BenchmarkRunner.compare ("m".toList) ("mmlu".toList) ("accuracy".toList) 80 74).difference_pct).isSome
        = true) ∧
    (generateReport [BenchmarkRunner.compare ("m".toList) ("mmlu".toList) ("accuracy".toList) 80 74]).isSome
      = true :=
  ⟨c10_compare_populates.1 ("m".toList) ("mmlu".toList) ("accuracy".toList) 80 74,
    c10_compare_populates.2 [BenchmarkRunner.compare ("m".toList) ("mmlu".toList) ("accuracy".toList) 80 74]
      (fun _ hc =>
        ⟨("m".toList), ("mmlu".toList), ("accuracy".toList), 80, 74,
          List.mem_singleton.mp hc⟩)⟩

/-- **C1 counterexample.** The claim says `match("mmlu-pro score")`
resolves to `"mmlupro"`; on the code's catalog — which lists `"mmlu"`
(index 0) before `"mmlupro"` (index 11) — it resolves to `"mmlu"`. -/
theorem c1_counterexample :
    matchBenchmark ("mmlu-pro score".toList) = some ("mmlu".toList) ∧
    matchBenchmark ("mmlu-pro score".toList) ≠ some ("mmlupro".toList) := by
  constructor
  · decide
  · decide

/-- **C1 amended.** The catalog is checked in a fixed order and the first
containment hit wins; but in `BENCHMARK_PATTERNS` the entry `"mmlu"`
precedes `"mmlupro"`, so no label can ever resolve to `"mmlupro"` (any
label containing `"mmlupro"` also contains `"mmlu"`), and
`match("mmlu-pro score")` resolves to `"mmlu"`. -/
theorem c1_amended_matcher :
    (∀ (label p : Str), matchBenchmark label = some p →
      ∃ pre post, benchmarkPatterns = pre ++ p :: post ∧
        substr (lowerStr p) (lowerStr (strip label)) = true ∧
        ∀ q ∈ pre, substr (lowerStr q) (lowerStr (strip label)) = false) ∧
    (∀ label : Str, matchBenchmark label ≠ some ("mmlupro".toList)) ∧
    matchBenchmark ("mmlu-pro score".toList) = some ("mmlu".toList) := by
  refine ⟨?_, ?_, by decide⟩
  · intro label p h
    exact find?_first _ benchmarkPatterns p h
  · intro label h
    rw [matchBenchmark] at h
    have hsome := List.find?_some h
    simp only at hsome
    rw [show lowerStr ("mmlupro".toList) = "mmlupro".toList by decide] at hsome
    have hmmlu : substr ("mmlu".toList) (lowerStr (strip label)) = true :=
      substr_mono ("mmlupro".toList) ("mmlu".toList) mmlupro_prefixOf_imp_mmlu _ hsome
    have hmmlu' : substr (lowerStr ("mmlu".toList)) (lowerStr (strip label)) = true := by
      rw [show lowerStr ("mmlu".toList) = "mmlu".toList by decide]
      exact hmmlu
    have hfind : List.find? (fun p => substr (lowerStr p) (lowerStr (strip label)))
        benchmarkPatterns = some ("mmlu".toList) := by
      rw [show benchmarkPatterns = ("mmlu".toList) :: benchmarkPatterns.tail from rfl]
      exact List.find?_cons_of_pos _ hmmlu'
    rw [hfind] at h
    have heq : ("mmlu".toList : Str) = "mmlupro".toList := Option.some_inj.mp h
    exact absurd heq (by decide)

/-- Witness for C1 amended: the first-hit characterization applied to the
label `"gsm8k 5-shot"`, which resolves to `"gsm8k"`. -/
theorem c1_amended_matcher_witness :
    ∃ pre post, benchmarkPatterns = pre ++ ("gsm8k".toList) :: post ∧
      substr (lowerStr ("gsm8k".toList)) (lowerStr (strip ("gsm8k 5-shot".toList))) = true ∧
      ∀ q ∈ pre, substr (lowerStr q) (lowerStr (strip ("gsm8k 5-shot".toList))) = false :=
  c1_amended_matcher.1 ("gsm8k 5-shot".toList) ("gsm8k".toList) (by decide)

/-- **C8 counterexample.** The claim says a comparison is emitted for every
task present in the reported set (the stub `run_benchmark` always returns a
value, so an actual record is always obtainable).  With `gsm8k` reported
but absent from the requested default task list, `compare_model` emits
nothing. -/
theorem c8_counterexample :
    dictLookup (loadReportedBenchmarks gsm8kFs ("m".toList)) ("gsm8k".toList) = some 50 ∧
    compareModel gsm8kFs ("m".toList) defaultTasks = [] := by
  constructor
  · rfl
  · rfl

/-- **C8 amended.** `compare_model` iterates over the *requested* task
list, not over the reported set: it emits, in request order, one
comparison for each requested task that is a key of the loaded reported
mapping (with `metric = "accuracy"` and the stub's actual value `0`), and
skips requested tasks missing from the reported mapping as well as every
reported task that was not requested. -/
theorem c8_amended_compare_model (fs : Str → Option (List (Str × ℚ)))
    (model_id : Str) (tasks : List Str) :
    compareModel fs model_id tasks
      = (tasks.filter
            (fun t => (dictLookup (loadReportedBenchmarks fs model_id) t).isSome)).map
          (fun t => BenchmarkRunner.compare model_id t ("accuracy".toList)
            ((dictLookup (loadReportedBenchmarks fs model_id) t).getD 0) 0) ∧
    (compareModel fs model_id tasks).map (fun c => c.task)
      = tasks.filter
          (fun t => (dictLookup (loadReportedBenchmarks fs model_id) t).isSome) := by
  have key : ∀ (reported : List (Str × ℚ)) (ts : List Str),
      ts.filterMap (fun task =>
        match dictLookup reported task with
        | some v =>
          some (BenchmarkRunner.compare model_id task ("accuracy".toList) v
            (runBenchmark model_id task).value)
        | none => none)
      = (ts.filter (fun t => (dictLookup reported t).isSome)).map
          (fun t => BenchmarkRunner.compare model_id t ("accuracy".toList)
            ((dictLookup reported t).getD 0) 0) := by
    intro reported ts
    induction ts with
    | nil => rfl
    | cons a ts ih =>
      cases hl : dictLookup reported a with
      | some v =>
        rw [List.filterMap_cons, hl, List.filter_cons]
        simp only [hl, Option.isSome_some, if_true, List.map_cons, Option.getD_some]
        rw [ih]
        rfl
      | none =>
        rw [List.filterMap_cons, hl, List.filter_cons]
        simp only [hl, Option.isSome_none, Bool.false_eq_true, if_false]
        exact ih
  have h1 : compareModel fs model_id tasks
      = (tasks.filter
            (fun t => (dictLookup (loadReportedBenchmarks fs model_id) t).isSome)).map
          (fun t => BenchmarkRunner.compare model_id t ("accuracy".toList)
            ((dictLookup (loadReportedBenchmarks fs model_id) t).getD 0) 0) := by
    rw [compareModel]
    exact key (loadReportedBenchmarks fs model_id) tasks
  refine ⟨h1, ?_⟩
  rw [h1, List.map_map]
  have : ((fun c : BenchmarkComparison => c.task) ∘
      (fun t => BenchmarkRunner.compare model_id t ("accuracy".toList)
        ((dictLookup (loadReportedBenchmarks fs model_id) t).getD 0) 0))
      = fun t => t := rfl
  rw [this, List.map_id_fun']
  rfl

/-! ## Evaluation lemmas for the parsers -/

theorem takeWhile_all (p : Char → Bool) :
    ∀ l : Str, (∀ c ∈ l, p c = true) → l.takeWhile p = l := by
  intro l
  induction l with
  | nil => intro _; rfl
  | cons a t ih =>
    intro h
    rw [List.takeWhile_cons, h a (List.mem_cons_self a t)]
    simp only [if_true]
    rw [ih (fun c hc => h c (List.mem_cons_of_mem a hc))]

theorem dropWhile_all (p : Char → Bool) :
    ∀ l : Str, (∀ c ∈ l, p c = true) → l.dropWhile p = [] := by
  intro l
  induction l with
  | nil => intro _; rfl
  | cons a t ih =>
    intro h
    rw [List.dropWhile_cons, h a (List.mem_cons_self a t)]
    simp only [if_true]
    exact ih (fun c hc => h c (List.mem_cons_of_mem a hc))

theorem span_all (p : Char → Bool) (l : Str) (h : ∀ c ∈ l, p c = true) :
    l.span p = (l, []) := by
  rw [List.span_eq_take_drop, takeWhile_all p l h, dropWhile_all p l h]

theorem span_append (p : Char → Bool) (xs : Str) (y : Char) (rest : Str)
    (hxs : ∀ c ∈ xs, p c = true) (hy : p y = false) :
    (xs ++ y :: rest).span p = (xs, y :: rest) := by
  induction xs with
  | nil =>
    rw [List.nil_append, List.span_eq_take_drop, List.takeWhile_cons, List.dropWhile_cons, hy]
    simp
  | cons a t ih =>
    have ha : p a = true := hxs a (List.mem_cons_self a t)
    have ht := ih (fun c hc => hxs c (List.mem_cons_of_mem a hc))
    rw [List.span_eq_take_drop] at ht ⊢
    rw [List.cons_append, List.takeWhile_cons, List.dropWhile_cons, ha]
    simp only [if_true]
    rw [Prod.mk.injEq] at ht
    rw [ht.1, ht.2]

theorem digit_not_special (c : Char) (h : c.isDigit = true) :
    c ≠ '+' ∧ c ≠ '-' ∧ c ≠ '.' := by
  refine ⟨?_, ?_, ?_⟩ <;> intro he <;> rw [he] at h <;> exact absurd h (by decide)

theorem digit_not_ws (c : Char) (h : c.isDigit = true) : c.isWhitespace = false := by
  cases hw : c.isWhitespace with
  | false => rfl
  | true =>
    have hw' := hw
    simp only [Char.isWhitespace, Bool.or_eq_true, decide_eq_true_eq] at hw'
    rcases hw' with ((h1 | h1) | h1) | h1 <;> rw [h1] at h <;> exact absurd h (by decide)

theorem readSign_digit (c : Char) (t : Str) (h : c.isDigit = true) :
    readSign (c :: t) = (1, c :: t) := by
  obtain ⟨h1, h2, _⟩ := digit_not_special c h
  rw [readSign, if_neg h1, if_neg h2]

theorem pyFloatCore_int (ds : Str) (hne : ds ≠ []) (hd : ∀ c ∈ ds, c.isDigit = true) :
    pyFloatCore ds = some ((digitsToNat ds : ℚ)) := by
  obtain ⟨d, t, rfl⟩ := List.exists_cons_of_ne_nil hne
  rw [pyFloatCore]
  rw [readSign_digit d t (hd d (List.mem_cons_self d t))]
  simp only
  rw [span_all Char.isDigit (d :: t) hd]
  simp only [List.isEmpty_cons, List.isEmpty_nil]
  norm_num [digitsToNat]

theorem pyFloatCore_decimal (ip fp : Str) (hne : ip ≠ [])
    (hip : ∀ c ∈ ip, c.isDigit = true) (hfp : ∀ c ∈ fp, c.isDigit = true) :
    pyFloatCore (ip ++ '.' :: fp)
      = some ((digitsToNat ip : ℚ) + (digitsToNat fp : ℚ) / 10 ^ fp.length) := by
  obtain ⟨d, t, rfl⟩ := List.exists_cons_of_ne_nil hne
  rw [pyFloatCore]
  rw [show ((d :: t) ++ '.' :: fp) = d :: (t ++ '.' :: fp) from rfl]
  rw [readSign_digit d (t ++ '.' :: fp) (hip d (List.mem_cons_self d t))]
  simp only
  rw [show (d :: (t ++ '.' :: fp)) = ((d :: t) ++ '.' :: fp) from rfl]
  rw [span_append Char.isDigit (d :: t) '.' fp hip (by decide)]
  simp only
  rw [span_all Char.isDigit fp hfp]
  simp only [List.isEmpty_cons]
  norm_num

theorem parseBenchmarkValue_int (ds : Str) (hne : ds ≠ [])
    (hd : ∀ c ∈ ds, c.isDigit = true) :
    parseBenchmarkValue ds = some ((digitsToNat ds : ℚ)) := by
  have hnws : ∀ c ∈ ds, c.isWhitespace = false := fun c hc => digit_not_ws c (hd c hc)
  have hfil : List.filter (fun ch => ch ≠ '%') ds = ds :=
    List.filter_eq_self.mpr (fun c hc => by
      simp only [decide_eq_true_eq]
      intro he
      have hdc := hd c hc
      rw [he] at hdc
      exact absurd hdc (by decide))
  rw [parseBenchmarkValue, strip_eq_self ds hnws, hfil, pyFloat, strip_eq_self ds hnws]
  exact pyFloatCore_int ds hne hd

theorem parseBenchmarkValue_70 : parseBenchmarkValue ("70".toList) = some 70 := by
  rw [parseBenchmarkValue_int ("70".toList) (by decide) (by decide),
    show digitsToNat ("70".toList) = 70 by decide]
  norm_num

theorem parseBenchmarkValue_80 : parseBenchmarkValue ("80".toList) = some 80 := by
  rw [parseBenchmarkValue_int ("80".toList) (by decide) (by decide),
    show digitsToNat ("80".toList) = 80 by decide]
  norm_num

theorem parseBenchmarkValue_75_3 : parseBenchmarkValue ("75.3".toList) = some (753 / 10) := by
  rw [parseBenchmarkValue,
    show (strip ("75.3".toList)).filter (fun ch => ch ≠ '%') = "75.3".toList by decide,
    pyFloat, show strip ("75.3".toList) = "75.3".toList by decide,
    show ("75.3".toList) = "75".toList ++ '.' :: "3".toList by decide,
    pyFloatCore_decimal ("75".toList) ("3".toList) (by decide) (by decide) (by decide),
    show digitsToNat ("75".toList) = 75 by decide,
    show digitsToNat ("3".toList) = 3 by decide]
  norm_num

/-! ## Evaluation of the extractor on the concrete documents -/

theorem rowLoop_mmlu (v : Str) (q : ℚ) (hv : parseBenchmarkValue v = some q) :
    rowLoop ("mmlu".toList) v benchmarkPatterns
      = [{ name := "mmlu".toList, value := q, dataset := "mmlu".toList,
           num_shots := none, raw_value := v }] := by
  rw [show benchmarkPatterns = ("mmlu".toList) :: benchmarkPatterns.tail from rfl]
  rw [rowLoop]
  rw [if_pos (show substr (lowerStr ("mmlu".toList)) ("mmlu".toList) = true by decide)]
  rw [hv]
  rw [show extractNumShots ("mmlu".toList) = none by decide]

theorem extractRow_mmlu (v : Str) (q : ℚ) (hv : parseBenchmarkValue (strip v) = some q) :
    extractRow ["mmlu".toList, v]
      = [{ name := "mmlu".toList, value := q, dataset := "mmlu".toList,
           num_shots := none, raw_value := strip v }] := by
  rw [extractRow]
  rw [show lowerStr (strip ("mmlu".toList)) = "mmlu".toList by decide]
  exact rowLoop_mmlu (strip v) q hv

theorem extractBenchmarks_twoMmluDoc :
    extractBenchmarks twoMmluDoc
      = [{ name := "mmlu".toList, value := 70, dataset := "mmlu".toList,
           num_shots := none, raw_value := "70".toList },
         { name := "mmlu".toList, value := 80, dataset := "mmlu".toList,
           num_shots := none, raw_value := "80".toList }] := by
  have h70 : parseBenchmarkValue (strip ("70".toList)) = some 70 := by
    rw [show strip ("70".toList) = "70".toList by decide]
    exact parseBenchmarkValue_70
  have h80 : parseBenchmarkValue (strip ("80".toList)) = some 80 := by
    rw [show strip ("80".toList) = "80".toList by decide]
    exact parseBenchmarkValue_80
  rw [extractBenchmarks, twoMmluDoc]
  simp only [List.flatten_cons, List.flatten_nil, List.append_nil, List.nil_append,
    List.map_cons, List.map_nil]
  rw [extractRow_mmlu ("70".toList) 70 h70, extractRow_mmlu ("80".toList) 80 h80]
  rw [show strip ("70".toList) = "70".toList by decide,
    show strip ("80".toList) = "80".toList by decide]
  rfl

theorem extractBenchmarks_oneMmluDoc :
    extractBenchmarks oneMmluDoc
      = [{ name := "mmlu".toList, value := 753 / 10, dataset := "mmlu".toList,
           num_shots := none, raw_value := "75.3".toList }] := by
  have h753 : parseBenchmarkValue (strip ("75.3".toList)) = some (753 / 10) := by
    rw [show strip ("75.3".toList) = "75.3".toList by decide]
    exact parseBenchmarkValue_75_3
  rw [extractBenchmarks, oneMmluDoc]
  simp only [List.flatten_cons, List.flatten_nil, List.append_nil, List.nil_append,
    List.map_cons, List.map_nil]
  rw [extractRow_mmlu ("75.3".toList) (753 / 10) h753]
  rw [show strip ("75.3".toList) = "75.3".toList by decide]

/-- **C2 counterexample.** The claim says a document with two rows both
labeled `mmlu` yields exactly one record; `extract_benchmarks` performs no
deduplication and yields two. -/
theorem c2_counterexample :
    (extractBenchmarks twoMmluDoc).length = 2 ∧
    (extractBenchmarks twoMmluDoc).length ≠ 1 ∧
    (extractBenchmarks twoMmluDoc).map (fun r => r.value) = [70, 80] := by
  rw [extractBenchmarks_twoMmluDoc]
  exact ⟨rfl, by decide, rfl⟩

/-- **C2 amended.** The extractor emits one record per matching row,
duplicates included; last-write-wins deduplication happens only when
reported benchmarks are loaded for comparison, where the dict built from
the record list keyed by `name` keeps, for every key, the value of the
last entry with that key — for the two-`mmlu` document the loaded mapping
sends `mmlu` to the later row's value `80`. -/
theorem c2_amended_dedup :
    (∀ (l : List (Str × ℚ)) (k : Str),
      dictLookup (buildDict l) k
        = (l.reverse.find? (fun kv => kv.1 == k)).map (fun kv => kv.2)) ∧
    dictLookup
        (buildDict ((extractBenchmarks twoMmluDoc).map (fun r => (r.name, r.value))))
        ("mmlu".toList)
      = some 80 := by
  refine ⟨dictLookup_buildDict, ?_⟩
  rw [extractBenchmarks_twoMmluDoc]
  rfl

/-- The emitted-record invariant of the pattern loop: any record produced
by `rowLoop` stores, in `value`, exactly the successfully parsed score of
its `raw_value` cell. -/
theorem rowLoop_value (name v : Str) (r : BenchmarkScore) :
    ∀ ps : List Str, r ∈ rowLoop name v ps →
      parseBenchmarkValue r.raw_value = some r.value := by
  intro ps
  induction ps with
  | nil => intro h; cases h
  | cons p rest ih =>
    rw [rowLoop]
    by_cases hs : substr (lowerStr p) name = true
    · rw [if_pos hs]
      cases hv : parseBenchmarkValue v with
      | some q =>
        intro h
        rw [List.mem_singleton.mp h]
        exact hv
      | none => exact ih
    · rw [if_neg hs]
      exact ih

/-- **C7.** `parse_score` returns null (never 0) on unparseable input, and
the extractor emits a record only when the score parsed successfully:
every emitted record's `value` is the successful parse of its raw cell, so
no record ever carries `0` standing in for an unparseable value. -/
theorem c7_value_only_if_parsed :
    (∀ (doc : Document) (r : BenchmarkScore), r ∈ extractBenchmarks doc →
      parseBenchmarkValue r.raw_value = some r.value) ∧
    parseBenchmarkValue ("not a number".toList) = none := by
  constructor
  · intro doc r hr
    rw [extractBenchmarks] at hr
    obtain ⟨l, hl, hrl⟩ := List.mem_flatten.mp hr
    obtain ⟨row, _, hle⟩ := List.mem_map.mp hl
    rw [← hle] at hrl
    revert hrl
    cases row with
    | nil => intro hrl; exact absurd hrl (List.not_mem_nil r)
    | cons c0 row1 =>
      cases row1 with
      | nil => intro hrl; exact absurd hrl (List.not_mem_nil r)
      | cons c1 rest =>
        intro hrl
        rw [extractRow] at hrl
        exact rowLoop_value (lowerStr (strip c0)) (strip c1) r benchmarkPatterns hrl
  · rfl

/-- Witness for C7: the record extracted from the one-row document parses
back to its own value. -/
theorem c7_value_only_if_parsed_witness :
    parseBenchmarkValue
        (({ name := "mmlu".toList, value := 753 / 10, dataset := "mmlu".toList,
            num_shots := none, raw_value := "75.3".toList } : BenchmarkScore).raw_value)
      = some (({ name := "mmlu".toList, value := 753 / 10, dataset := "mmlu".toList,
                   num_shots := none, raw_value := "75.3".toList } : BenchmarkScore).value) :=
  c7_value_only_if_parsed.1 oneMmluDoc _ (by
    rw [extractBenchmarks_oneMmluDoc]
    exact List.mem_singleton.mpr rfl)

/-- **C6.** A trailing percent sign is cosmetic: for every string, parsing
with the trailing `%` equals parsing with it removed (no rescaling). -/
theorem c6_percent_cosmetic (a : Str) :
    parseBenchmarkValue (a ++ ['%']) = parseBenchmarkValue a := by
  have hp : ∀ c : Char, c.isWhitespace = true →
      (fun ch : Char => decide (ch ≠ '%')) c = true := by
    intro c hc
    simp only [decide_eq_true_eq]
    intro he
    rw [he] at hc
    exact absurd hc (by decide)
  rw [parseBenchmarkValue, parseBenchmarkValue, pyFloat, pyFloat]
  congr 1
  rw [strip_filter _ hp (a ++ ['%']), strip_filter _ hp a]
  rw [List.filter_append]
  simp

/-! ## Character-set facts and suffix-loop evaluation (for C5) -/

theorem floatChars_facts (c : Char) (h : c ∈ floatChars) :
    c.isWhitespace = false ∧ c.toUpper = c ∧ c ≠ ',' ∧ c ≠ 'K' ∧ c ≠ 'M' ∧ c ≠ 'B' := by
  simp only [floatChars, List.mem_cons, List.not_mem_nil, or_false] at h
  rcases h with h|h|h|h|h|h|h|h|h|h|h|h|h <;> rw [h] <;>
    exact ⟨rfl, rfl, by decide, by decide, by decide, by decide⟩

theorem digitChars_facts (c : Char) (h : c ∈ digitChars) :
    c.isDigit = true ∧ c.isWhitespace = false ∧ c.toUpper = c ∧
      c ≠ ',' ∧ c ≠ 'K' ∧ c ≠ 'M' ∧ c ≠ 'B' := by
  simp only [digitChars, List.mem_cons, List.not_mem_nil, or_false] at h
  rcases h with h|h|h|h|h|h|h|h|h|h <;> rw [h] <;>
    exact ⟨rfl, rfl, rfl, by decide, by decide, by decide, by decide⟩

theorem ws_toUpper_not_suffix (c : Char) (h : c.isWhitespace = true) :
    c.toUpper ∉ (['K', 'M', 'B'] : List Char) := by
  have h' := h
  simp only [Char.isWhitespace, Bool.or_eq_true, decide_eq_true_eq] at h'
  rcases h' with ((h1 | h1) | h1) | h1 <;> rw [h1] <;> decide

theorem contains_suffix_true (l : Str) (C : Char) : (l ++ [C]).contains C = true :=
  List.elem_iff.mpr (List.mem_append.mpr (Or.inr (List.mem_singleton.mpr rfl)))

theorem filter_ne_suffix (l : Str) (C : Char) (hl : ∀ ch ∈ l, ch ≠ C) :
    (l ++ [C]).filter (fun ch => ch ≠ C) = l := by
  rw [List.filter_append,
    List.filter_eq_self.mpr (fun c hc => by simp only [decide_eq_true_eq]; exact hl c hc)]
  simp

theorem suffixLoop_eval (l : Str) (q : ℚ) (C : Char) (m : Int)
    (hl : ∀ ch ∈ l, ch ∈ floatChars)
    (hq : pyFloat l = some q)
    (hCm : (C = 'K' ∧ m = 1000) ∨ (C = 'M' ∧ m = 1000000) ∨ (C = 'B' ∧ m = 1000000000)) :
    suffixLoop (l ++ [C]) multipliers = some (truncQ (q * (m : ℚ))) := by
  have hK : ∀ ch ∈ l, ch ≠ 'K' := fun ch hc => (floatChars_facts ch (hl ch hc)).2.2.2.1
  have hM : ∀ ch ∈ l, ch ≠ 'M' := fun ch hc => (floatChars_facts ch (hl ch hc)).2.2.2.2.1
  have hB : ∀ ch ∈ l, ch ≠ 'B' := fun ch hc => (floatChars_facts ch (hl ch hc)).2.2.2.2.2
  rcases hCm with ⟨rfl, rfl⟩ | ⟨rfl, rfl⟩ | ⟨rfl, rfl⟩
  · rw [multipliers, suffixLoop, if_pos (contains_suffix_true l 'K'),
      filter_ne_suffix l 'K' hK, hq]
  · have hcon : (l ++ ['M']).contains 'K' = false := contains_false _ _ (by
      intro hmem
      rcases List.mem_append.mp hmem with h1 | h1
      · exact hK 'K' h1 rfl
      · exact absurd (List.mem_singleton.mp h1) (by decide))
    rw [multipliers, suffixLoop, if_neg (by rw [hcon]; exact Bool.false_ne_true),
      suffixLoop, if_pos (contains_suffix_true l 'M'), filter_ne_suffix l 'M' hM, hq]
  · have hcon1 : (l ++ ['B']).contains 'K' = false := contains_false _ _ (by
      intro hmem
      rcases List.mem_append.mp hmem with h1 | h1
      · exact hK 'K' h1 rfl
      · exact absurd (List.mem_singleton.mp h1) (by decide))
    have hcon2 : (l ++ ['B']).contains 'M' = false := contains_false _ _ (by
      intro hmem
      rcases List.mem_append.mp hmem with h1 | h1
      · exact hM 'M' h1 rfl
      · exact absurd (List.mem_singleton.mp h1) (by decide))
    rw [multipliers, suffixLoop, if_neg (by rw [hcon1]; exact Bool.false_ne_true),
      suffixLoop, if_neg (by rw [hcon2]; exact Bool.false_ne_true),
      suffixLoop, if_pos (contains_suffix_true l 'B'), filter_ne_suffix l 'B' hB, hq]

theorem suffixLoop_none (t : Str) (hK : t.contains 'K' = false)
    (hM : t.contains 'M' = false) (hB : t.contains 'B' = false) :
    suffixLoop t multipliers = none := by
  rw [multipliers, suffixLoop, if_neg (by rw [hK]; exact Bool.false_ne_true),
    suffixLoop, if_neg (by rw [hM]; exact Bool.false_ne_true),
    suffixLoop, if_neg (by rw [hB]; exact Bool.false_ne_true), suffixLoop]

theorem pyIntCore_digits (ds : Str) (hne : ds ≠ []) (hd : ∀ c ∈ ds, c.isDigit = true) :
    pyIntCore ds = some ((digitsToNat ds : Int)) := by
  obtain ⟨d, t, rfl⟩ := List.exists_cons_of_ne_nil hne
  obtain ⟨h1, h2, _⟩ := digit_not_special d (hd d (List.mem_cons_self d t))
  rw [pyIntCore, if_neg h1, if_neg h2, if_pos (List.all_eq_true.mpr hd)]

theorem parseNumberCore_digits (ds : Str) (hne : ds ≠ [])
    (hd : ∀ ch ∈ ds, ch ∈ digitChars)
    (hnws : ∀ c ∈ ds, c.isWhitespace = false) :
    parseNumberCore ds = (digitsToNat ds : Int) := by
  have hdig : ∀ c ∈ ds, c.isDigit = true := fun c hc => (digitChars_facts c (hd c hc)).1
  have hnoK : ds.contains 'K' = false := contains_false _ _ (fun h =>
    (digitChars_facts 'K' (hd 'K' h)).2.2.2.2.1 rfl)
  have hnoM : ds.contains 'M' = false := contains_false _ _ (fun h =>
    (digitChars_facts 'M' (hd 'M' h)).2.2.2.2.2.1 rfl)
  have hnoB : ds.contains 'B' = false := contains_false _ _ (fun h =>
    (digitChars_facts 'B' (hd 'B' h)).2.2.2.2.2.2 rfl)
  rw [parseNumberCore, suffixLoop_none ds hnoK hnoM hnoB, pyInt, strip_eq_self _ hnws,
    pyIntCore_digits ds hne hdig]

/-- **C5.** For numeric strings of the form `<float><K|M|B>`
(case-insensitive suffix; whitespace and commas already absent after the
normalization step), `parse_count` returns the float prefix multiplied by
1e3, 1e6 or 1e9 (converted to the contract's integer, i.e. truncated
toward zero; exact whenever the product is an integer, e.g.
`"1.2M" → 1200000`); a plain digit string falls back to the integer parse,
and `0` is returned when all parsing fails. -/
theorem c5_parse_count :
    (∀ (l : Str) (q : ℚ) (c : Char) (m : Int),
      (c.toUpper, m) ∈ multipliers →
      (∀ ch ∈ l, ch ∈ floatChars) →
      pyFloat l = some q →
      parseNumber (l ++ [c]) = truncQ (q * (m : ℚ)) ∧
      ∀ n : Int, q * (m : ℚ) = (n : ℚ) → parseNumber (l ++ [c]) = n) ∧
    (∀ ds : Str, ds ≠ [] → (∀ ch ∈ ds, ch ∈ digitChars) →
      parseNumber ds = (digitsToNat ds : Int)) ∧
    parseNumber ("N/A".toList) = 0 := by
  refine ⟨?_, ?_, by decide⟩
  · intro l q c m hm hl hq
    have hC : c.toUpper = 'K' ∧ m = 1000 ∨ c.toUpper = 'M' ∧ m = 1000000 ∨
        c.toUpper = 'B' ∧ m = 1000000000 := by
      simpa only [multipliers, List.mem_cons, Prod.mk.injEq, List.not_mem_nil,
        or_false] using hm
    have hCmem : c.toUpper ∈ (['K', 'M', 'B'] : List Char) := by
      rcases hC with ⟨h1, _⟩ | ⟨h1, _⟩ | ⟨h1, _⟩ <;> rw [h1] <;> decide
    have hcws : c.isWhitespace = false := by
      cases hws : c.isWhitespace with
      | false => rfl
      | true => exact absurd hCmem (ws_toUpper_not_suffix c hws)
    have hnws : ∀ ch ∈ l ++ [c], ch.isWhitespace = false := by
      intro ch hch
      rcases List.mem_append.mp hch with h1 | h1
      · exact (floatChars_facts ch (hl ch h1)).1
      · rw [List.mem_singleton.mp h1]; exact hcws
    have hupper : upperStr (l ++ [c]) = l ++ [c.toUpper] := by
      rw [upperStr, List.map_append,
        map_self Char.toUpper l (fun ch hch => (floatChars_facts ch (hl ch hch)).2.1)]
      rfl
    have hCc : c.toUpper ≠ ',' := by
      have h3 : c.toUpper = 'K' ∨ c.toUpper = 'M' ∨ c.toUpper = 'B' := by
        simpa using hCmem
      rcases h3 with h1 | h1 | h1 <;> rw [h1] <;> decide
    have hfil : (l ++ [c.toUpper]).filter (fun ch => ch ≠ ',') = l ++ [c.toUpper] :=
      List.filter_eq_self.mpr (by
        intro ch hch
        simp only [decide_eq_true_eq]
        rcases List.mem_append.mp hch with h1 | h1
        · exact (floatChars_facts ch (hl ch h1)).2.2.1
        · rw [List.mem_singleton.mp h1]; exact hCc)
    have ht : (upperStr (strip (l ++ [c]))).filter (fun ch => ch ≠ ',') = l ++ [c.toUpper] := by
      rw [strip_eq_self _ hnws, hupper, hfil]
    have hmain : parseNumber (l ++ [c]) = truncQ (q * (m : ℚ)) := by
      rw [parseNumber, ht, parseNumberCore, suffixLoop_eval l q c.toUpper m hl hq hC]
    refine ⟨hmain, ?_⟩
    intro n hn
    rw [hmain, hn, truncQ_intCast]
  · intro ds hne hd
    have hnws : ∀ c ∈ ds, c.isWhitespace = false := fun c hc =>
      (digitChars_facts c (hd c hc)).2.1
    have ht : (upperStr (strip ds)).filter (fun ch => ch ≠ ',') = ds := by
      rw [strip_eq_self _ hnws, upperStr,
        map_self Char.toUpper ds (fun ch hch => (digitChars_facts ch (hd ch hch)).2.2.1)]
      exact List.filter_eq_self.mpr (by
        intro ch hch
        simp only [decide_eq_true_eq]
        exact (digitChars_facts ch (hd ch hch)).2.2.2.1)
    rw [parseNumber, ht]
    exact parseNumberCore_digits ds hne hd hnws

/-- Witness for C5: `"1.2M"` parses to `1200000`, and `"N/A"`-style
failures are covered by the theorem's closed conjunct. -/
theorem c5_parse_count_witness :
    (('M'.toUpper, (1000000 : Int)) ∈ multipliers ∧
      (∀ ch ∈ "1.2".toList, ch ∈ floatChars) ∧
      pyFloat ("1.2".toList) = some (6 / 5)) ∧
    parseNumber ("1.2M".toList) = 1200000 := by
  have hq : pyFloat ("1.2".toList) = some (6 / 5) := by
    rw [pyFloat, show strip ("1.2".toList) = "1.2".toList by decide,
      show ("1.2".toList) = "1".toList ++ '.' :: "2".toList by decide,
      pyFloatCore_decimal ("1".toList) ("2".toList) (by decide) (by decide) (by decide),
      show digitsToNat ("1".toList) = 1 by decide,
      show digitsToNat ("2".toList) = 2 by decide,
      show ("2".toList).length = 1 by decide]
    norm_num
  refine ⟨⟨by decide, by decide, hq⟩, ?_⟩
  have h := (c5_parse_count.1 ("1.2".toList) (6 / 5) 'M' 1000000 (by decide) (by decide) hq).2
    1200000 (by norm_num)
  rw [show ("1.2M".toList) = "1.2".toList ++ ['M'] by decide]
  exact h
